import Mathlib

/-!
Verification of `src/tools/gen_print_vga.py`, a code-generation tool that
turns an input string and a colour attribute into a sequence of textual
`mov` instructions writing VGA text-buffer cells at `0xb8000`.

The Python source is embedded shallowly: `hex_letter` and `gen_asm` are
translated directly, with Python's `str(n)` and `hex(n)[2:]` formatting of
non-negative integers modelled by fuel-based digit expansions so that every
definition evaluates inside the kernel.  Observer functions
(`extractOffset`, `extractOperand`, `usesDoubleSpace`, `usesSingleSpace`)
parse fields back out of an emitted line so that the stated properties are
about the emitted text, not restatements of the generator's definition.
-/

namespace GenPrintVga

/-- The character Python uses for a digit of value `k < 16` in `str`/`hex`
output: `0`-`9` then lowercase `a`-`f`. -/
def pyDigitChar : Nat → Char
  | 0 => '0'
  | 1 => '1'
  | 2 => '2'
  | 3 => '3'
  | 4 => '4'
  | 5 => '5'
  | 6 => '6'
  | 7 => '7'
  | 8 => '8'
  | 9 => '9'
  | 10 => 'a'
  | 11 => 'b'
  | 12 => 'c'
  | 13 => 'd'
  | 14 => 'e'
  | 15 => 'f'
  | _ => '*'

/-- Decimal digit expansion of a natural number (most significant first),
with explicit fuel so that the kernel can evaluate it.  With fuel `n + 1`
this is exactly the digit string of Python's `str(n)` for `n ≥ 0`. -/
def decDigitsAux : Nat → Nat → List Char
  | 0, _ => []
  | fuel + 1, n =>
    if n < 10 then [pyDigitChar n]
    else decDigitsAux fuel (n / 10) ++ [pyDigitChar (n % 10)]

/-- Python's `str(n)` for a non-negative integer `n`. -/
def pyStr (n : Nat) : String := ⟨decDigitsAux (n + 1) n⟩

/-- Lowercase hexadecimal digit expansion of a natural number (most
significant first), with explicit fuel. -/
def hexDigitsAux : Nat → Nat → List Char
  | 0, _ => []
  | fuel + 1, n =>
    if n < 16 then [pyDigitChar n]
    else hexDigitsAux fuel (n / 16) ++ [pyDigitChar (n % 16)]

/-- Python's `hex(n)[2:]` for a non-negative integer `n`: the lowercase
hexadecimal digits of `n`, without the `0x` marker and without padding. -/
def pyHex (n : Nat) : String := ⟨hexDigitsAux (n + 1) n⟩

/-- Embedding of `hex_letter(letter, colour)` from the source:
`"0x0{0}{1}".format(colour, hex(ord(letter))[2:])`. -/
def hex_letter (letter : Char) (colour : String) : String :=
  "0x0" ++ colour ++ pyHex letter.toNat

/-- The instruction line `gen_asm` produces for the character `letter` at
position `index`, including the trailing newline of the format string.
This is the body of the loop in `gen_asm`: the format string
`"mov word [0xb8000 +  {0}], {1} ; {2}\n"` is chosen when `2 * index < 10`
and the single-space variant otherwise. -/
def instrLine (index : Nat) (letter : Char) (colour : String) : String :=
  if 2 * index < 10 then
    "mov word [0xb8000 +  " ++ pyStr (2 * index) ++ "], " ++
      hex_letter letter colour ++ " ; " ++ String.singleton letter ++ "\n"
  else
    "mov word [0xb8000 + " ++ pyStr (2 * index) ++ "], " ++
      hex_letter letter colour ++ " ; " ++ String.singleton letter ++ "\n"

/-- Embedding of `gen_asm(string, colour)` from the source: starting from
the empty string, iterate over `zip(string, range(len(string)))` and append
one formatted instruction line per character. -/
def gen_asm (string colour : String) : String :=
  (string.data.zip (List.range string.data.length)).foldl
    (fun out p => out ++ instrLine p.2 p.1 colour) ""

/-- The individual instruction lines `gen_asm` emits, in emission order. -/
def gen_asm_lines (string colour : String) : List String :=
  (string.data.zip (List.range string.data.length)).map
    (fun p => instrLine p.2 p.1 colour)

/-! ### Observers that parse fields back out of an emitted line -/

/-- Decimal digit test used by the offset observer. -/
def isDecDigit (c : Char) : Bool := 48 ≤ c.toNat && c.toNat ≤ 57

/-- Lowercase hexadecimal digit test (`0`-`9` or `a`-`f`). -/
def isLowerHexDigit (c : Char) : Bool :=
  (48 ≤ c.toNat && c.toNat ≤ 57) || (97 ≤ c.toNat && c.toNat ≤ 102)

/-- Numeric value of a decimal digit list, most significant first. -/
def parseDec (ds : List Char) : Nat :=
  ds.foldl (fun a c => 10 * a + (c.toNat - 48)) 0

/-- Numeric value of one hexadecimal digit character. -/
def hexVal (c : Char) : Nat :=
  if c.toNat ≤ 57 then c.toNat - 48 else c.toNat - 87

/-- Numeric value of a hexadecimal digit list, most significant first. -/
def parseHex (ds : List Char) : Nat :=
  ds.foldl (fun a c => 16 * a + hexVal c) 0

/-- The digit characters of the offset field of an emitted line: everything
before the first `]`, with the 19-character head `mov word [0xb8000 +` and
any following alignment spaces removed. -/
def offsetDigits (line : String) : List Char :=
  ((line.data.takeWhile (fun c => !(c == ']'))).drop 19).dropWhile
    (fun c => c == ' ')

/-- The offset an emitted line writes to, read back from its text. -/
def extractOffset (line : String) : Option Nat :=
  if (offsetDigits line).isEmpty then none
  else if (offsetDigits line).all isDecDigit then
    some (parseDec (offsetDigits line))
  else none

/-- Everything after the `], ` separator of an emitted line: the immediate
operand followed by the ` ; <char>\n` comment tail. -/
def operandField (line : String) : List Char :=
  (line.data.dropWhile (fun c => !(c == ']'))).drop 3

/-- The immediate operand of an emitted line, read back from its text: the
operand field with the five-character comment tail removed. -/
def extractOperand (line : String) : List Char :=
  (operandField line).take ((operandField line).length - 5)

/-- Whether a line uses the double-space padded bracket form. -/
def usesDoubleSpace (line : String) : Bool :=
  line.data.take 21 == ("mov word [0xb8000 +  ").data

/-- Whether a line uses the single-space bracket form (and not the padded
one). -/
def usesSingleSpace (line : String) : Bool :=
  (line.data.take 20 == ("mov word [0xb8000 + ").data) &&
    !(usesDoubleSpace line)

/-! ### Facts about the digit expansions -/

lemma pyDigitChar_dec_facts :
    ∀ k, k < 10 →
      48 ≤ (pyDigitChar k).toNat ∧ (pyDigitChar k).toNat ≤ 57 ∧
        (pyDigitChar k).toNat - 48 = k := by decide

lemma pyDigitChar_hex_facts :
    ∀ k, k < 16 →
      isLowerHexDigit (pyDigitChar k) = true ∧ hexVal (pyDigitChar k) = k := by
  decide

lemma parseDec_append_one (ds : List Char) (d : Char) :
    parseDec (ds ++ [d]) = 10 * parseDec ds + (d.toNat - 48) := by
  simp [parseDec, List.foldl_append]

lemma parseHex_append_one (ds : List Char) (d : Char) :
    parseHex (ds ++ [d]) = 16 * parseHex ds + hexVal d := by
  simp [parseHex, List.foldl_append]

lemma decDigitsAux_spec :
    ∀ fuel n, n < fuel →
      decDigitsAux fuel n ≠ [] ∧
        (∀ c ∈ decDigitsAux fuel n, 48 ≤ c.toNat ∧ c.toNat ≤ 57) ∧
        parseDec (decDigitsAux fuel n) = n := by
  intro fuel
  induction fuel with
  | zero => intro n h; omega
  | succ fuel ih =>
    intro n h
    by_cases h10 : n < 10
    · refine ⟨?_, ?_, ?_⟩ <;> simp only [decDigitsAux, if_pos h10]
      · simp
      · intro c hc
        simp only [List.mem_singleton] at hc
        subst hc
        exact ⟨(pyDigitChar_dec_facts n h10).1, (pyDigitChar_dec_facts n h10).2.1⟩
      · have h48 := (pyDigitChar_dec_facts n h10).2.2
        simp [parseDec]
        omega
    · have hdiv : n / 10 < fuel := by
        have h1 : n / 10 < n := Nat.div_lt_self (by omega) (by omega)
        omega
      obtain ⟨hne, hdig, hval⟩ := ih (n / 10) hdiv
      have hmod := pyDigitChar_dec_facts (n % 10) (Nat.mod_lt n (by omega))
      refine ⟨?_, ?_, ?_⟩ <;> simp only [decDigitsAux, if_neg h10]
      · simp
      · intro c hc
        rcases List.mem_append.1 hc with h1 | h1
        · exact hdig c h1
        · simp only [List.mem_singleton] at h1
          subst h1
          exact ⟨hmod.1, hmod.2.1⟩
      · rw [parseDec_append_one, hval]
        have h2 := hmod.2.2
        omega

lemma hexDigitsAux_spec :
    ∀ fuel n, n < fuel →
      hexDigitsAux fuel n ≠ [] ∧
        (∀ c ∈ hexDigitsAux fuel n, isLowerHexDigit c = true) ∧
        parseHex (hexDigitsAux fuel n) = n := by
  intro fuel
  induction fuel with
  | zero => intro n h; omega
  | succ fuel ih =>
    intro n h
    by_cases h16 : n < 16
    · refine ⟨?_, ?_, ?_⟩ <;> simp only [hexDigitsAux, if_pos h16]
      · simp
      · intro c hc
        simp only [List.mem_singleton] at hc
        subst hc
        exact (pyDigitChar_hex_facts n h16).1
      · have hv := (pyDigitChar_hex_facts n h16).2
        simp [parseHex]
        omega
    · have hdiv : n / 16 < fuel := by
        have h1 : n / 16 < n := Nat.div_lt_self (by omega) (by omega)
        omega
      obtain ⟨hne, hdig, hval⟩ := ih (n / 16) hdiv
      have hmod := pyDigitChar_hex_facts (n % 16) (Nat.mod_lt n (by omega))
      refine ⟨?_, ?_, ?_⟩ <;> simp only [hexDigitsAux, if_neg h16]
      · simp
      · intro c hc
        rcases List.mem_append.1 hc with h1 | h1
        · exact hdig c h1
        · simp only [List.mem_singleton] at h1
          subst h1
          exact hmod.1
      · rw [parseHex_append_one, hval]
        have h2 := hmod.2
        omega

lemma pyStr_data_spec (n : Nat) :
    (pyStr n).data ≠ [] ∧
      (∀ c ∈ (pyStr n).data, 48 ≤ c.toNat ∧ c.toNat ≤ 57) ∧
      parseDec ((pyStr n).data) = n :=
  decDigitsAux_spec (n + 1) n (Nat.lt_succ_self n)

lemma pyHex_data_spec (n : Nat) :
    (pyHex n).data ≠ [] ∧
      (∀ c ∈ (pyHex n).data, isLowerHexDigit c = true) ∧
      parseHex ((pyHex n).data) = n :=
  hexDigitsAux_spec (n + 1) n (Nat.lt_succ_self n)

lemma pyHex_data_of_lt_16 (n : Nat) (h : n < 16) :
    (pyHex n).data = [pyDigitChar n] := by
  simp [pyHex, hexDigitsAux, h]

/-! ### Decomposition of an emitted line into its textual segments -/

lemma data_singleton (c : Char) : (String.singleton c).data = [c] := rfl

lemma data_pad2 :
    ("mov word [0xb8000 +  ").data = ("mov word [0xb8000 +").data ++ [' ', ' '] := rfl

lemma data_pad1 :
    ("mov word [0xb8000 + ").data = ("mov word [0xb8000 +").data ++ [' '] := rfl

lemma data_sep : ("], ").data = [']', ',', ' '] := rfl

lemma data_comment : (" ; ").data = [' ', ';', ' '] := rfl

lemma data_newline : ("\n").data = ['\n'] := rfl

lemma instrLine_data_of_lt (i : Nat) (letter : Char) (colour : String)
    (h : 2 * i < 10) :
    (instrLine i letter colour).data =
      ("mov word [0xb8000 +").data ++
        ([' ', ' '] ++ ((pyStr (2 * i)).data ++
          ([']', ',', ' '] ++ (("0x0").data ++ (colour.data ++
            ((pyHex letter.toNat).data ++
              ([' ', ';', ' '] ++ ([letter] ++ ['\n'])))))))) := by
  simp only [instrLine, if_pos h, hex_letter, String.data_append, data_singleton,
    data_pad2, data_sep, data_comment, data_newline, List.append_assoc]
  simp

lemma instrLine_data_of_ge (i : Nat) (letter : Char) (colour : String)
    (h : ¬ 2 * i < 10) :
    (instrLine i letter colour).data =
      ("mov word [0xb8000 +").data ++
        ([' '] ++ ((pyStr (2 * i)).data ++
          ([']', ',', ' '] ++ (("0x0").data ++ (colour.data ++
            ((pyHex letter.toNat).data ++
              ([' ', ';', ' '] ++ ([letter] ++ ['\n'])))))))) := by
  simp only [instrLine, if_neg h, hex_letter, String.data_append, data_singleton,
    data_pad1, data_sep, data_comment, data_newline, List.append_assoc]
  simp

/-! ### Behaviour of the observers on an emitted line -/

lemma not_rb_of_digit {c : Char} (h48 : 48 ≤ c.toNat) (h57 : c.toNat ≤ 57) :
    (!(c == ']')) = true := by
  have hc : c ≠ ']' := by
    intro he
    subst he
    exact absurd h57 (by decide)
  simp [hc]

lemma takeWhile_stops_at_rb (R : List Char) :
    (([']', ',', ' '] : List Char) ++ R).takeWhile (fun c => !(c == ']')) = [] := by
  simp [List.takeWhile_cons]

lemma dropWhile_stops_at_rb (R : List Char) :
    (([']', ',', ' '] : List Char) ++ R).dropWhile (fun c => !(c == ']')) =
      [']', ',', ' '] ++ R := by
  simp [List.dropWhile_cons]

lemma dropWhile_space_of_digits (pre D : List Char) (hpre : ∀ c ∈ pre, c = ' ')
    (hne : D ≠ []) (hd : ∀ c ∈ D, 48 ≤ c.toNat ∧ c.toNat ≤ 57) :
    (pre ++ D).dropWhile (fun c => c == ' ') = D := by
  induction pre with
  | nil =>
    obtain ⟨d, t, rfl⟩ := List.exists_cons_of_ne_nil hne
    have h48 := (hd d (List.mem_cons_self d t)).1
    have hdne : (d == ' ') = false := by
      rw [beq_eq_false_iff_ne]
      intro he
      subst he
      exact absurd h48 (by decide)
    simp [List.dropWhile_cons, hdne]
  | cons a pre ih =>
    have ha : a = ' ' := hpre a (List.mem_cons_self a pre)
    subst ha
    simp only [List.cons_append, List.dropWhile_cons]
    simp only [beq_self_eq_true, if_true]
    exact ih fun c hc => hpre c (List.mem_cons_of_mem _ hc)

lemma offsetDigits_instrLine (i : Nat) (letter : Char) (colour : String) :
    offsetDigits (instrLine i letter colour) = (pyStr (2 * i)).data := by
  obtain ⟨hne, hdig, -⟩ := pyStr_data_spec (2 * i)
  have hD : ∀ c ∈ (pyStr (2 * i)).data, (!(c == ']')) = true := fun c hc =>
    not_rb_of_digit (hdig c hc).1 (hdig c hc).2
  have hA : ∀ c ∈ ("mov word [0xb8000 +").data, (!(c == ']')) = true := by decide
  have hs2 : ∀ c ∈ ([' ', ' '] : List Char), (!(c == ']')) = true := by decide
  have hs1 : ∀ c ∈ ([' '] : List Char), (!(c == ']')) = true := by decide
  have hlen : ("mov word [0xb8000 +").data.length = 19 := by decide
  by_cases h : 2 * i < 10
  · unfold offsetDigits
    rw [instrLine_data_of_lt i letter colour h,
      List.takeWhile_append_of_pos hA, List.takeWhile_append_of_pos hs2,
      List.takeWhile_append_of_pos hD, takeWhile_stops_at_rb, List.append_nil,
      List.drop_left' hlen]
    exact dropWhile_space_of_digits [' ', ' '] _ (by decide) hne hdig
  · unfold offsetDigits
    rw [instrLine_data_of_ge i letter colour h,
      List.takeWhile_append_of_pos hA, List.takeWhile_append_of_pos hs1,
      List.takeWhile_append_of_pos hD, takeWhile_stops_at_rb, List.append_nil,
      List.drop_left' hlen]
    exact dropWhile_space_of_digits [' '] _ (by decide) hne hdig

lemma extractOffset_instrLine (i : Nat) (letter : Char) (colour : String) :
    extractOffset (instrLine i letter colour) = some (2 * i) := by
  obtain ⟨hne, hdig, hval⟩ := pyStr_data_spec (2 * i)
  unfold extractOffset
  rw [offsetDigits_instrLine]
  have h1 : (pyStr (2 * i)).data.isEmpty = false := by
    obtain ⟨d, t, heq⟩ := List.exists_cons_of_ne_nil hne
    rw [heq]
    rfl
  have h2 : (pyStr (2 * i)).data.all isDecDigit = true := by
    rw [List.all_eq_true]
    intro c hc
    have hcd := hdig c hc
    simp only [isDecDigit, Bool.and_eq_true, decide_eq_true_eq]
    omega
  simp [h1, h2, hval]

lemma operandField_instrLine (i : Nat) (letter : Char) (colour : String) :
    operandField (instrLine i letter colour) =
      ("0x0").data ++ (colour.data ++ ((pyHex letter.toNat).data ++
        ([' ', ';', ' '] ++ ([letter] ++ ['\n'])))) := by
  obtain ⟨-, hdig, -⟩ := pyStr_data_spec (2 * i)
  have hD : ∀ c ∈ (pyStr (2 * i)).data, (!(c == ']')) = true := fun c hc =>
    not_rb_of_digit (hdig c hc).1 (hdig c hc).2
  have hA : ∀ c ∈ ("mov word [0xb8000 +").data, (!(c == ']')) = true := by decide
  have hs2 : ∀ c ∈ ([' ', ' '] : List Char), (!(c == ']')) = true := by decide
  have hs1 : ∀ c ∈ ([' '] : List Char), (!(c == ']')) = true := by decide
  have hlen3 : ([']', ',', ' '] : List Char).length = 3 := by decide
  by_cases h : 2 * i < 10
  · unfold operandField
    rw [instrLine_data_of_lt i letter colour h,
      List.dropWhile_append_of_pos hA, List.dropWhile_append_of_pos hs2,
      List.dropWhile_append_of_pos hD, dropWhile_stops_at_rb,
      List.drop_left' hlen3]
  · unfold operandField
    rw [instrLine_data_of_ge i letter colour h,
      List.dropWhile_append_of_pos hA, List.dropWhile_append_of_pos hs1,
      List.dropWhile_append_of_pos hD, dropWhile_stops_at_rb,
      List.drop_left' hlen3]

lemma extractOperand_instrLine (i : Nat) (letter : Char) (colour : String) :
    extractOperand (instrLine i letter colour) =
      ("0x0").data ++ colour.data ++ (pyHex letter.toNat).data := by
  unfold extractOperand
  rw [operandField_instrLine]
  have hre : ("0x0").data ++ (colour.data ++ ((pyHex letter.toNat).data ++
      ([' ', ';', ' '] ++ ([letter] ++ ['\n'])))) =
      (("0x0").data ++ colour.data ++ (pyHex letter.toNat).data) ++
        ([' ', ';', ' '] ++ ([letter] ++ ['\n'])) := by
    simp [List.append_assoc]
  rw [hre]
  have hlen : ((("0x0").data ++ colour.data ++ (pyHex letter.toNat).data) ++
      ([' ', ';', ' '] ++ ([letter] ++ ['\n']))).length - 5 =
      (("0x0").data ++ colour.data ++ (pyHex letter.toNat).data).length := by
    simp only [List.length_append, List.length_cons, List.length_nil]
    omega
  rw [hlen, List.take_left]

lemma take21_of_digit_head (D R : List Char) (hne : D ≠ [])
    (hd : ∀ c ∈ D, 48 ≤ c.toNat ∧ c.toNat ≤ 57) :
    ((("mov word [0xb8000 +").data ++ ([' '] ++ (D ++ R))).take 21 ==
      ("mov word [0xb8000 +  ").data) = false := by
  obtain ⟨d, t, rfl⟩ := List.exists_cons_of_ne_nil hne
  have hd48 := (hd d (List.mem_cons_self d t)).1
  have hshape : ("mov word [0xb8000 +").data ++ ([' '] ++ ((d :: t) ++ R))
      = (("mov word [0xb8000 +").data ++ ([' '] ++ [d])) ++ (t ++ R) := by
    simp
  rw [hshape,
    List.take_left'
      (show (("mov word [0xb8000 +").data ++ ([' '] ++ [d])).length = 21 by simp)]
  rw [beq_eq_false_iff_ne]
  intro heq
  rw [data_pad2] at heq
  have hdd : ([' '] ++ [d] : List Char) = [' ', ' '] :=
    List.append_cancel_left heq
  simp only [List.cons_append, List.nil_append, List.cons.injEq, and_true,
    true_and] at hdd
  subst hdd
  exact absurd hd48 (by decide)

lemma usesDoubleSpace_instrLine (i : Nat) (letter : Char) (colour : String) :
    usesDoubleSpace (instrLine i letter colour) = decide (i < 5) := by
  obtain ⟨hne, hdig, -⟩ := pyStr_data_spec (2 * i)
  by_cases h : 2 * i < 10
  · have h5 : i < 5 := by omega
    unfold usesDoubleSpace
    rw [instrLine_data_of_lt i letter colour h, ← List.append_assoc,
      List.take_left'
        (show (("mov word [0xb8000 +").data ++ [' ', ' ']).length = 21 by decide),
      ← data_pad2]
    simp [h5]
  · have h5 : ¬ i < 5 := by omega
    unfold usesDoubleSpace
    rw [instrLine_data_of_ge i letter colour h, take21_of_digit_head _ _ hne hdig]
    simp [h5]

lemma usesSingleSpace_instrLine (i : Nat) (letter : Char) (colour : String) :
    usesSingleSpace (instrLine i letter colour) = decide (5 ≤ i) := by
  unfold usesSingleSpace
  rw [usesDoubleSpace_instrLine]
  by_cases h5 : i < 5
  · have h5' : ¬ 5 ≤ i := by omega
    simp [h5, h5']
  · have h5' : 5 ≤ i := by omega
    have h : ¬ 2 * i < 10 := by omega
    rw [instrLine_data_of_ge i letter colour h, ← List.append_assoc,
      List.take_left'
        (show (("mov word [0xb8000 +").data ++ [' ']).length = 20 by decide),
      ← data_pad1]
    simp [h5, h5']

/-! ### Structure of `gen_asm` as a sequence of lines -/

lemma gen_asm_eq_join (s colour : String) :
    gen_asm s colour = String.join (gen_asm_lines s colour) := by
  unfold gen_asm gen_asm_lines String.join
  rw [List.foldl_map]

lemma gen_asm_lines_length (s colour : String) :
    (gen_asm_lines s colour).length = s.data.length := by
  simp [gen_asm_lines]

lemma gen_asm_lines_get (s colour : String) (i : Nat)
    (hl : i < (gen_asm_lines s colour).length) (hd : i < s.data.length) :
    (gen_asm_lines s colour).get ⟨i, hl⟩ =
      instrLine i (s.data.get ⟨i, hd⟩) colour := by
  simp only [gen_asm_lines, List.get_eq_getElem, List.getElem_map,
    List.getElem_zip, List.getElem_range]

lemma instrLine_ends_newline (i : Nat) (letter : Char) (colour : String) :
    ∃ t : String, instrLine i letter colour = t ++ "\n" := by
  by_cases h : 2 * i < 10
  · refine ⟨"mov word [0xb8000 +  " ++ pyStr (2 * i) ++ "], " ++
      hex_letter letter colour ++ " ; " ++ String.singleton letter, ?_⟩
    unfold instrLine
    rw [if_pos h]
  · refine ⟨"mov word [0xb8000 + " ++ pyStr (2 * i) ++ "], " ++
      hex_letter letter colour ++ " ; " ++ String.singleton letter, ?_⟩
    unfold instrLine
    rw [if_neg h]

lemma gen_asm_lines_end_newline (s colour : String) :
    ∀ l ∈ gen_asm_lines s colour, ∃ t : String, l = t ++ "\n" := by
  intro l hl
  unfold gen_asm_lines at hl
  obtain ⟨p, hp, rfl⟩ := List.mem_map.1 hl
  exact instrLine_ends_newline p.2 p.1 colour

lemma gen_asm_foldl_ends (colour : String) :
    ∀ (zs : List (Char × Nat)) (acc : String), zs ≠ [] →
      ∃ t : String,
        zs.foldl (fun out p => out ++ instrLine p.2 p.1 colour) acc = t ++ "\n" := by
  intro zs
  induction zs with
  | nil => intro acc h; exact absurd rfl h
  | cons z zs ih =>
    intro acc h
    cases zs with
    | nil =>
      obtain ⟨u, hu⟩ := instrLine_ends_newline z.2 z.1 colour
      exact ⟨acc ++ u, by simp [List.foldl_cons, List.foldl_nil, hu,
        String.append_assoc]⟩
    | cons w ws =>
      exact ih (acc ++ instrLine z.2 z.1 colour) (by simp)

lemma gen_asm_ends_newline (s colour : String) (h : s.data ≠ []) :
    ∃ t : String, gen_asm s colour = t ++ "\n" := by
  unfold gen_asm
  apply gen_asm_foldl_ends
  intro hz
  rw [List.zip_eq_nil_iff] at hz
  rcases hz with h1 | h1
  · exact h h1
  · rw [List.range_eq_nil] at h1
    exact h (List.length_eq_zero.1 h1)

/-! ### The claims -/

/-- C1: for every input string `s` and colour, `gen_asm` emits exactly one
instruction line per character of `s`, in the order of the characters: the
output is the concatenation of `gen_asm_lines`, there are as many lines as
characters, and the `i`-th line is the instruction generated for the `i`-th
character. -/
theorem emits_one_instruction_per_char (s colour : String) :
    gen_asm s colour = String.join (gen_asm_lines s colour) ∧
    (gen_asm_lines s colour).length = s.length ∧
    ∀ (i : Nat) (hl : i < (gen_asm_lines s colour).length)
      (hd : i < s.data.length),
      (gen_asm_lines s colour).get ⟨i, hl⟩ =
        instrLine i (s.data.get ⟨i, hd⟩) colour := by
  refine ⟨gen_asm_eq_join s colour, ?_, ?_⟩
  · rw [gen_asm_lines_length]
    rfl
  · intro i hl hd
    exact gen_asm_lines_get s colour i hl hd

/-- Witness for C1 at the concrete input `"Hi"` with colour `"2"`. -/
theorem emits_one_instruction_per_char_witness :
    gen_asm "Hi" "2" = String.join (gen_asm_lines "Hi" "2") ∧
    (gen_asm_lines "Hi" "2").length = ("Hi" : String).length ∧
    (gen_asm_lines "Hi" "2").get ⟨1, by decide⟩ =
      instrLine 1 (("Hi" : String).data.get ⟨1, by decide⟩) "2" :=
  ⟨(emits_one_instruction_per_char "Hi" "2").1,
   (emits_one_instruction_per_char "Hi" "2").2.1,
   (emits_one_instruction_per_char "Hi" "2").2.2 1 (by decide) (by decide)⟩

/-- C2: the offset in the bracket expression of the `i`-th emitted
instruction line, parsed back out of the line's text, equals `2 * i`. -/
theorem offset_eq_two_mul_index (s colour : String) (i : Nat)
    (hl : i < (gen_asm_lines s colour).length) :
    extractOffset ((gen_asm_lines s colour).get ⟨i, hl⟩) = some (2 * i) := by
  have hd : i < s.data.length := by
    rw [gen_asm_lines_length] at hl
    exact hl
  rw [gen_asm_lines_get s colour i hl hd, extractOffset_instrLine]

/-- Witness for C2 at `"Hello!"` with colour `"4"`, index `5` (the first
index using a two-digit offset). -/
theorem offset_eq_two_mul_index_witness :
    extractOffset ((gen_asm_lines "Hello!" "4").get ⟨5, by decide⟩) =
      some (2 * 5) :=
  offset_eq_two_mul_index "Hello!" "4" 5 (by decide)

/-- C3: the immediate operand of the `i`-th emitted instruction line,
parsed back out of the line's text, is `0x0` followed by the attribute
string followed by the hexadecimal code of the `i`-th character; that code
is a genuine lowercase-hexadecimal rendering of the character's
codepoint. -/
theorem operand_is_attr_and_hex (s attr : String) (i : Nat)
    (hl : i < (gen_asm_lines s attr).length) (hd : i < s.data.length) :
    extractOperand ((gen_asm_lines s attr).get ⟨i, hl⟩) =
      ("0x0").data ++ attr.data ++ (pyHex (s.data.get ⟨i, hd⟩).toNat).data ∧
    parseHex ((pyHex (s.data.get ⟨i, hd⟩).toNat).data) =
      (s.data.get ⟨i, hd⟩).toNat ∧
    (∀ c ∈ (pyHex (s.data.get ⟨i, hd⟩).toNat).data, isLowerHexDigit c = true) := by
  refine ⟨?_, (pyHex_data_spec _).2.2, (pyHex_data_spec _).2.1⟩
  rw [gen_asm_lines_get s attr i hl hd, extractOperand_instrLine]

/-- Witness for C3 at `"A"` with attribute `"7f"`, index `0`. -/
theorem operand_is_attr_and_hex_witness :
    extractOperand ((gen_asm_lines "A" "7f").get ⟨0, by decide⟩) =
      ("0x0").data ++ ("7f" : String).data ++
        (pyHex (("A" : String).data.get ⟨0, by decide⟩).toNat).data ∧
    parseHex ((pyHex (("A" : String).data.get ⟨0, by decide⟩).toNat).data) =
      (("A" : String).data.get ⟨0, by decide⟩).toNat ∧
    (∀ c ∈ (pyHex (("A" : String).data.get ⟨0, by decide⟩).toNat).data,
      isLowerHexDigit c = true) :=
  operand_is_attr_and_hex "A" "7f" 0 (by decide) (by decide)

/-- C4: the `i`-th emitted instruction line uses the double-space bracket
form `[0xb8000 +  <offset>]` exactly when `i < 5`, and the single-space
form exactly when `i ≥ 5`. -/
theorem bracket_spacing_iff (s colour : String) (i : Nat)
    (hl : i < (gen_asm_lines s colour).length) :
    (usesDoubleSpace ((gen_asm_lines s colour).get ⟨i, hl⟩) = true ↔ i < 5) ∧
    (usesSingleSpace ((gen_asm_lines s colour).get ⟨i, hl⟩) = true ↔ 5 ≤ i) := by
  have hd : i < s.data.length := by
    rw [gen_asm_lines_length] at hl
    exact hl
  rw [gen_asm_lines_get s colour i hl hd, usesDoubleSpace_instrLine,
    usesSingleSpace_instrLine]
  simp

/-- Witness for C4 at `"abcdef"` with colour `"1"`, index `5` (single-space
side). -/
theorem bracket_spacing_iff_witness :
    (usesDoubleSpace ((gen_asm_lines "abcdef" "1").get ⟨5, by decide⟩) = true ↔
      (5 : Nat) < 5) ∧
    (usesSingleSpace ((gen_asm_lines "abcdef" "1").get ⟨5, by decide⟩) = true ↔
      (5 : Nat) ≤ 5) :=
  bracket_spacing_iff "abcdef" "1" 5 (by decide)

/-- C5 counterexample: at input `"Hi"` with colour `"2"`, the output of
`gen_asm` is NOT the newline-join of its instruction-line texts (each line
with its terminating newline stripped): the real output carries a trailing
newline after the last instruction. -/
theorem join_without_trailing_newline_fails :
    gen_asm "Hi" "2" ≠
      String.intercalate "\n"
        ((gen_asm_lines "Hi" "2").map (fun l => String.mk l.data.dropLast)) := by
  decide

/-- C5 (amended): the output of `gen_asm` is the concatenation of its
instruction lines, each of which is terminated by a newline character; in
particular, for a non-empty input the output carries a trailing newline. -/
theorem output_is_newline_terminated_lines (s colour : String) :
    gen_asm s colour = String.join (gen_asm_lines s colour) ∧
    (∀ l ∈ gen_asm_lines s colour, ∃ t : String, l = t ++ "\n") ∧
    (s.data ≠ [] → ∃ t : String, gen_asm s colour = t ++ "\n") :=
  ⟨gen_asm_eq_join s colour, gen_asm_lines_end_newline s colour,
   gen_asm_ends_newline s colour⟩

/-- Witness for the amended C5 at `"Hi"` with colour `"2"`. -/
theorem output_is_newline_terminated_lines_witness :
    ("Hi" : String).data ≠ [] ∧
    (∃ t : String, gen_asm "Hi" "2" = t ++ "\n") :=
  ⟨by decide, (output_is_newline_terminated_lines "Hi" "2").2.2 (by decide)⟩

/-- C6: the concrete input `"Hi"` with colour `"2"` yields exactly two
instruction lines whose texts are
`mov word [0xb8000 +  0], 0x0248 ; H` and
`mov word [0xb8000 +  2], 0x0269 ; i`. -/
theorem concrete_hi_colour2 :
    (gen_asm_lines "Hi" "2").map (fun l => String.mk l.data.dropLast) =
      ["mov word [0xb8000 +  0], 0x0248 ; H",
       "mov word [0xb8000 +  2], 0x0269 ; i"] ∧
    (gen_asm_lines "Hi" "2").length = 2 ∧
    gen_asm "Hi" "2" =
      "mov word [0xb8000 +  0], 0x0248 ; H\nmov word [0xb8000 +  2], 0x0269 ; i\n" :=
  ⟨by decide, by decide, by decide⟩

/-- C7: the empty input string produces the empty output and zero
instruction lines, for every colour, with no error (the generator is a
total function). -/
theorem empty_string_empty_output (colour : String) :
    gen_asm "" colour = "" ∧ gen_asm_lines "" colour = [] :=
  ⟨rfl, rfl⟩

/-- C8: `gen_asm` is deterministic and stateless: two calls on identical
inputs yield byte-identical outputs. -/
theorem gen_asm_deterministic (s₁ c₁ s₂ c₂ : String)
    (hs : s₁ = s₂) (hc : c₁ = c₂) :
    gen_asm s₁ c₁ = gen_asm s₂ c₂ ∧
    (gen_asm s₁ c₁).data = (gen_asm s₂ c₂).data := by
  subst hs
  subst hc
  exact ⟨rfl, rfl⟩

/-- Witness for C8 at `"Hi"` with colour `"2"`. -/
theorem gen_asm_deterministic_witness :
    gen_asm "Hi" "2" = gen_asm "Hi" "2" ∧
    (gen_asm "Hi" "2").data = (gen_asm "Hi" "2").data :=
  gen_asm_deterministic "Hi" "2" "Hi" "2" rfl rfl

/-- C9: for every colour string — empty, non-hex, anything — `gen_asm`
returns normally (it is total) and splices the colour text verbatim between
`0x0` and the character's hex code in every emitted line's operand. -/
theorem colour_spliced_verbatim (s colour : String) (i : Nat)
    (hl : i < (gen_asm_lines s colour).length) (hd : i < s.data.length) :
    extractOperand ((gen_asm_lines s colour).get ⟨i, hl⟩) =
      ("0x0").data ++ colour.data ++ (pyHex (s.data.get ⟨i, hd⟩).toNat).data := by
  rw [gen_asm_lines_get s colour i hl hd, extractOperand_instrLine]

/-- Witness for C9 at `"A"` with the empty colour string (not a two-digit
hex attribute). -/
theorem colour_spliced_verbatim_witness :
    extractOperand ((gen_asm_lines "A" "").get ⟨0, by decide⟩) =
      ("0x0").data ++ ("" : String).data ++
        (pyHex (("A" : String).data.get ⟨0, by decide⟩).toNat).data :=
  colour_spliced_verbatim "A" "" 0 (by decide) (by decide)

/-- C10: a character whose codepoint is below 16 gets a single hex digit
with no zero-padding, so the operand is `0x0` + colour + one digit. -/
theorem low_codepoint_single_hex_digit (letter : Char) (colour : String)
    (i : Nat) (h : letter.toNat < 16) :
    (pyHex letter.toNat).data = [pyDigitChar letter.toNat] ∧
    extractOperand (instrLine i letter colour) =
      ("0x0").data ++ colour.data ++ [pyDigitChar letter.toNat] := by
  refine ⟨pyHex_data_of_lt_16 _ h, ?_⟩
  rw [extractOperand_instrLine, pyHex_data_of_lt_16 _ h]

/-- Witness for C10 at the tab character (codepoint 9). -/
theorem low_codepoint_single_hex_digit_witness :
    ('\t').toNat < 16 ∧
    ((pyHex ('\t').toNat).data = [pyDigitChar ('\t').toNat] ∧
     extractOperand (instrLine 0 '\t' "2") =
       ("0x0").data ++ ("2" : String).data ++ [pyDigitChar ('\t').toNat]) :=
  ⟨by decide, low_codepoint_single_hex_digit '\t' "2" 0 (by decide)⟩

end GenPrintVga
